import Mathlib

/-!
Shallow embedding of `speakers_alternatives_spiritual.py`, the scraping
pipeline of Onyeksman/alternatives-experts-scraper, together with proofs of
its specified properties.

The embedding translates the pure parsing functions (`parse_main_cards`,
`parse_about_from_html`) and the pandas post-processing step into Lean
functions over an abstract DOM (row nodes, field-content blocks), and models
the effectful parts (`fetch_detail_html` with its tenacity retry decorator,
the per-record enrichment loop of `main`) with explicit outcome oracles.
-/

namespace Scraper

/-- Characters removed by Python's `str.strip()` with no argument, and by
BeautifulSoup's `get_text(strip=True)` at segment ends: ASCII whitespace
(space, tab, newline, carriage return, vertical tab, form feed). -/
def isPySpace (c : Char) : Bool :=
  c == ' ' || c == '\t' || c == '\n' || c == '\r' || c == '\x0b' || c == '\x0c'

/-- Strip `isPySpace` characters from both ends of a character list:
the list-level model of Python's `str.strip()`. -/
def stripList (l : List Char) : List Char :=
  ((l.dropWhile isPySpace).reverse.dropWhile isPySpace).reverse

/-- Model of Python's `str.strip()` (no argument). -/
def pstrip (s : String) : String :=
  ⟨stripList s.data⟩

/-- A string is stripped when stripping it again changes nothing: the model
of "has no leading or trailing whitespace". -/
def IsStripped (s : String) : Prop :=
  pstrip s = s

theorem dropWhile_dropWhile {α : Type} (p : α → Bool) (l : List α) :
    (l.dropWhile p).dropWhile p = l.dropWhile p := by
  induction l with
  | nil => rfl
  | cons a as ih =>
    by_cases h : p a
    · simp [List.dropWhile_cons, h, ih]
    · simp [List.dropWhile_cons, h]

theorem dropWhile_fixed_of_prefix_fixed {α : Type} {p : α → Bool} {l l' : List α}
    (hl : l.dropWhile p = l) (hpre : l' <+: l) : l'.dropWhile p = l' := by
  cases l' with
  | nil => rfl
  | cons a t =>
    obtain ⟨r, hr⟩ := hpre
    subst hr
    rw [List.cons_append] at hl
    have hpa : p a = false := by
      cases hb : p a
      · rfl
      · exfalso
        rw [List.dropWhile_cons_of_pos hb] at hl
        have hle : ((t ++ r).dropWhile p).length ≤ (t ++ r).length :=
          (List.dropWhile_suffix p).sublist.length_le
        rw [hl] at hle
        simp only [List.length_cons] at hle
        omega
    exact List.dropWhile_cons_of_neg (by simp [hpa])

theorem stripList_dropWhile (l : List Char) :
    (stripList l).dropWhile isPySpace = stripList l := by
  unfold stripList
  apply dropWhile_fixed_of_prefix_fixed (dropWhile_dropWhile isPySpace l)
  rw [← List.reverse_suffix]
  simp only [List.reverse_reverse]
  exact List.dropWhile_suffix isPySpace

theorem stripList_idem (l : List Char) : stripList (stripList l) = stripList l := by
  have h1 : stripList (stripList l) =
      ((stripList l).reverse.dropWhile isPySpace).reverse := by
    unfold stripList
    rw [show ((((l.dropWhile isPySpace).reverse.dropWhile isPySpace).reverse).dropWhile
          isPySpace) = stripList l from stripList_dropWhile l]
    rfl
  rw [h1]
  unfold stripList
  rw [List.reverse_reverse, dropWhile_dropWhile]

theorem pstrip_idem (s : String) : pstrip (pstrip s) = pstrip s := by
  unfold pstrip
  exact congrArg String.mk (stripList_idem s.data)

theorem isStripped_pstrip (s : String) : IsStripped (pstrip s) :=
  pstrip_idem s

/-! ### Configuration constants (the CONFIG section of the source) -/

def BASE : String := "https://www.alternatives.org.uk"

def RETRY_ATTEMPTS : Nat := 3

/-! ### Abstract DOM for the directory page

`parse_main_cards` reads, for each `div.views-row` container, the first
`h3 a` anchor (its visible text and `href` attribute) and the first `ul`
(the texts of its `li` items).  A `RowNode` records exactly that data. -/

/-- The first `h3 a` anchor inside a row: its raw visible text and its
`href` attribute (`none` when the attribute is missing). -/
structure Anchor where
  text : String
  href : Option String

/-- One `div.views-row` container element of the directory page.
`anchor = none` models a row with no `h3 a` element; `ul = none` models a
row with no `ul` element, and `ul = some ts` gives the raw texts of the
`li` items of the first `ul`, in document order. -/
structure RowNode where
  anchor : Option Anchor
  ul : Option (List String)

/-- The lightweight record produced per row (the dict built at the end of
the `parse_main_cards` loop body). -/
structure CardRecord where
  name : String
  firstTag : String
  lastTag : String
  detailUrl : Option String
deriving DecidableEq, Repr

/-- Models `urllib.parse.urljoin(BASE, href)` for the repository's fixed
base (scheme and host, no path, no query): an absolute http(s) href is
returned unchanged, any other href is resolved against the site root. -/
def urljoin (base href : String) : String :=
  if href.startsWith "http://" || href.startsWith "https://" then href
  else if href.startsWith "/" then base ++ href
  else base ++ "/" ++ href

/-- The body of the `for node in nodes` loop of `parse_main_cards`.
`get_text(strip=True)` is modelled by `pstrip`; Python's
`urljoin(BASE, href) if href else None` treats both a missing `href`
attribute and an empty `href` string as falsy. -/
def cardOfRow (node : RowNode) : CardRecord :=
  let name : String := match node.anchor with
    | some a => pstrip a.text
    | none => ""
  let href : Option String := match node.anchor with
    | some a => a.href
    | none => none
  let detailUrl : Option String := match href with
    | some h => if h = "" then none else some (urljoin BASE h)
    | none => none
  let tags : String × String := match node.ul with
    | none => ("", "")
    | some [] => ("", "")
    | some (x :: xs) => (pstrip x, pstrip ((x :: xs).getLast (List.cons_ne_nil x xs)))
  { name := pstrip name
    firstTag := pstrip tags.1
    lastTag := pstrip tags.2
    detailUrl := detailUrl }

/-- `parse_main_cards`: one `CardRecord` per `div.views-row` container, in
document order (`soup.select` returns matches in document order). -/
def parse_main_cards (nodes : List RowNode) : List CardRecord :=
  nodes.map cardOfRow

/-! ### Abstract DOM for a detail page

`parse_about_from_html` reads the `div.field-content` blocks in document
order; from each block it reads its `p` descendants (raw texts, document
order) and the block's own visible text. -/

/-- One `div.field-content` block of a detail page: the raw texts of its
`p` descendants, and the block's own raw visible text. -/
structure FieldBlock where
  paragraphs : List String
  ownText : String
deriving Repr

/-- A rendered detail document, reduced to its `div.field-content` blocks
in document order. -/
abbrev Doc := List FieldBlock

/-- What one block of the `for block in field_blocks` loop appends to
`parts`: with `p` descendants, every non-empty stripped paragraph text
(`p.get_text(" ", strip=True)`, modelled by `pstrip`); without, the
block's own stripped text, kept only when non-empty and longer than 30
characters. -/
def blockParts (block : FieldBlock) : List String :=
  if block.paragraphs ≠ [] then
    (block.paragraphs.map pstrip).filter (fun t => t ≠ "")
  else
    let text := pstrip block.ownText
    if text ≠ "" ∧ text.length > 30 then [text] else []

/-- `parse_about_from_html`: `None` (and the falsy empty document) short-
circuits to `""`; otherwise the collected parts of all blocks are joined
with a blank line and the result is stripped. -/
def parse_about_from_html (html : Option Doc) : String :=
  match html with
  | none => ""
  | some doc => pstrip (String.intercalate "\n\n" (doc.flatMap blockParts))

/-! ### The Retrying Fetcher (`fetch_detail_html` under `@retry`)

The browser is external, so one attempt's interaction with it is an oracle
value: the outcome of the `goto` / `wait_for_selector` / `sleep` /
`content` body, and whether `page.close()` raises.  The tenacity decorator
`retry(stop=stop_after_attempt(3), ..., reraise=True)` re-runs the whole
attempt on any exception, up to `RETRY_ATTEMPTS` attempts in total, and on
exhaustion re-raises the last attempt's exception. -/

/-- The exceptions an attempt body can raise: a `goto` timeout, a
`wait_for_selector` timeout, or any other exception. -/
inductive FetchErr where
  | navTimeout
  | waitTimeout
  | other
deriving DecidableEq, Repr

/-- The oracle for one attempt: the outcome of the attempt's body (the
rendered HTML on success, the raised exception otherwise), and whether
the `page.close()` call in the `finally` block raises. -/
structure Attempt where
  body : Except FetchErr String
  closeFails : Bool

/-- One attempt of `fetch_detail_html`: the `try` body runs, then the
`finally` block closes the page inside its own `try/except Exception:
pass`, so a close failure is discarded and the body's outcome passes
through unchanged.  Returns the attempt's outcome and whether the close
was invoked. -/
def runAttempt (a : Attempt) : Except FetchErr String × Bool :=
  let bodyRes := a.body
  let closeRes : Except FetchErr Unit :=
    if a.closeFails then Except.error FetchErr.other else Except.ok ()
  let closeHandled : Except FetchErr Unit :=
    match closeRes with
    | Except.error _ => Except.ok ()
    | Except.ok _ => Except.ok ()
  match closeHandled with
  | _ => (bodyRes, true)

/-- The tenacity retry loop: `k` attempts already made, `rem` attempts
still allowed.  On success return the result; on failure retry while
attempts remain, else re-raise the last error (`reraise=True`).  The
second component counts the attempts made. -/
def retryRun (atts : Nat → Attempt) : Nat → Nat → Except FetchErr String × Nat
  | k, 0 => (Except.error FetchErr.other, k)
  | k, rem + 1 =>
    match (runAttempt (atts k)).1 with
    | Except.ok s => (Except.ok s, k + 1)
    | Except.error e =>
      if rem = 0 then (Except.error e, k + 1) else retryRun atts (k + 1) rem

/-- `fetch_detail_html` for one URL, as the retry loop over the attempt
oracle, starting with no attempts made and `RETRY_ATTEMPTS` allowed. -/
def fetch_detail_html (atts : Nat → Attempt) : Except FetchErr String × Nat :=
  retryRun atts 0 RETRY_ATTEMPTS

/-! ### The enrichment loop of `main` -/

/-- The final record appended to `speakers` each iteration. -/
structure EnrichedRecord where
  name : String
  firstTag : String
  lastTag : String
  about : String
deriving DecidableEq, Repr

/-- Per-URL outcome of the `try` block of one enrichment iteration:
either the fetch completed (and the rendered page's blocks are in hand;
`none` models a falsy document), or some exception was raised inside the
`try` (retry exhaustion, navigation timeout, or a parser error), which
the `except (RetryError, pwTimeout, Exception)` arm catches. -/
inductive DetailOutcome where
  | fetched (doc : Option Doc)
  | failed
deriving Repr

/-- One iteration of the `for idx, rec in enumerate(records, ...)` loop:
a missing detail URL skips the fetch; a caught exception leaves `about`
empty; then each dict field is `.strip()`-ed and the record appended. -/
def enrichOne (outcome : String → DetailOutcome) (rec : CardRecord) : EnrichedRecord :=
  let about : String := match rec.detailUrl with
    | none => ""
    | some url =>
      match outcome url with
      | DetailOutcome.fetched doc => parse_about_from_html doc
      | DetailOutcome.failed => ""
  { name := pstrip rec.name
    firstTag := pstrip rec.firstTag
    lastTag := pstrip rec.lastTag
    about := pstrip about }

/-- The whole enrichment loop: one appended `EnrichedRecord` per input
`CardRecord`, in input order. -/
def enrichAll (outcome : String → DetailOutcome) (recs : List CardRecord) :
    List EnrichedRecord :=
  recs.map (enrichOne outcome)

/-! ### Post-processing (`df.replace` and `df.drop_duplicates`) -/

/-- `df.replace(["", None], "N/A")` on one cell.  Every cell of the frame
is a string here (all four fields are built by `.strip()` calls), so only
the empty string is rewritten to the sentinel. -/
def normField (s : String) : String :=
  if s = "" then "N/A" else s

/-- Sentinel normalization of one row. -/
def normalize (r : EnrichedRecord) : EnrichedRecord :=
  { name := normField r.name
    firstTag := normField r.firstTag
    lastTag := normField r.lastTag
    about := normField r.about }

/-- `df.drop_duplicates()` (pandas default `keep="first"`): keep the first
occurrence of each row, drop later exact duplicates, preserve order. -/
def dropDuplicates {α : Type} [DecidableEq α] : List α → List α
  | [] => []
  | a :: as => a :: dropDuplicates (as.filter (fun x => x ≠ a))
termination_by l => l.length
decreasing_by
  simp only [List.length_cons]
  exact Nat.lt_succ_of_le (List.length_filter_le _ _)

/-- The post-processing pipeline of `main`: sentinel normalization of
every field, then exact-row deduplication. -/
def postProcess (rs : List EnrichedRecord) : List EnrichedRecord :=
  dropDuplicates (rs.map normalize)

/-! ### Lemmas about `dropDuplicates` -/

theorem dropDuplicates_nil {α : Type} [DecidableEq α] :
    dropDuplicates ([] : List α) = [] := by
  rw [dropDuplicates]

theorem dropDuplicates_cons {α : Type} [DecidableEq α] (a : α) (as : List α) :
    dropDuplicates (a :: as) = a :: dropDuplicates (as.filter (fun x => x ≠ a)) := by
  rw [dropDuplicates]

theorem mem_dropDuplicates {α : Type} [DecidableEq α] (l : List α) (x : α) :
    x ∈ dropDuplicates l ↔ x ∈ l := by
  induction l using dropDuplicates.induct with
  | case1 => rw [dropDuplicates_nil]
  | case2 a as ih =>
    rw [dropDuplicates_cons]
    simp only [List.mem_cons, ih, List.mem_filter, decide_eq_true_eq]
    by_cases hx : x = a
    · simp [hx]
    · simp [hx]

theorem dropDuplicates_sublist {α : Type} [DecidableEq α] (l : List α) :
    (dropDuplicates l).Sublist l := by
  induction l using dropDuplicates.induct with
  | case1 => rw [dropDuplicates_nil]
  | case2 a as ih =>
    rw [dropDuplicates_cons]
    exact List.Sublist.cons₂ a (ih.trans (List.filter_sublist as))

theorem dropDuplicates_nodup {α : Type} [DecidableEq α] (l : List α) :
    (dropDuplicates l).Nodup := by
  induction l using dropDuplicates.induct with
  | case1 => rw [dropDuplicates_nil]; exact List.Pairwise.nil
  | case2 a as ih =>
    rw [dropDuplicates_cons, List.nodup_cons]
    refine ⟨?_, ih⟩
    intro hmem
    have hfil := (mem_dropDuplicates _ _).1 hmem
    have := (List.mem_filter.1 hfil).2
    simp at this

theorem indexOf_lt_of_filter_indexOf_lt {α : Type} [DecidableEq α] {p : α → Bool} :
    ∀ {l : List α} {x y : α}, x ∈ l.filter p → y ∈ l.filter p →
      (l.filter p).indexOf x < (l.filter p).indexOf y → l.indexOf x < l.indexOf y := by
  intro l
  induction l with
  | nil => intro x y hx _ _; simp at hx
  | cons c t ih =>
    intro x y hx hy hlt
    by_cases hpc : p c = true
    · rw [List.filter_cons_of_pos hpc] at hx hy hlt
      by_cases hxc : x = c
      · subst hxc
        have hyx : y ≠ x := by
          intro h
          subst h
          exact absurd hlt (lt_irrefl _)
        rw [List.indexOf_cons_self, List.indexOf_cons_ne _ (Ne.symm hyx)]
        exact Nat.succ_pos _
      · by_cases hyc : y = c
        · subst hyc
          rw [List.indexOf_cons_self] at hlt
          exact absurd hlt (Nat.not_lt_zero _)
        · have hx' : x ∈ t.filter p := by
            rcases List.mem_cons.1 hx with h | h
            · exact absurd h hxc
            · exact h
          have hy' : y ∈ t.filter p := by
            rcases List.mem_cons.1 hy with h | h
            · exact absurd h hyc
            · exact h
          rw [List.indexOf_cons_ne _ (fun h => hxc h.symm),
            List.indexOf_cons_ne _ (fun h => hyc h.symm)] at hlt
          have h2 := ih hx' hy' (Nat.lt_of_succ_lt_succ hlt)
          rw [List.indexOf_cons_ne _ (fun h => hxc h.symm),
            List.indexOf_cons_ne _ (fun h => hyc h.symm)]
          exact Nat.succ_lt_succ h2
    · rw [List.filter_cons_of_neg (by simpa using hpc)] at hx hy hlt
      have hxc : x ≠ c := by
        intro h
        subst h
        exact hpc ((List.mem_filter.1 hx).2)
      have hyc : y ≠ c := by
        intro h
        subst h
        exact hpc ((List.mem_filter.1 hy).2)
      have h2 := ih hx hy hlt
      rw [List.indexOf_cons_ne _ (fun h => hxc h.symm),
        List.indexOf_cons_ne _ (fun h => hyc h.symm)]
      exact Nat.succ_lt_succ h2

theorem dropDuplicates_pairwise {α : Type} [DecidableEq α] (l : List α) :
    (dropDuplicates l).Pairwise (fun x y => l.indexOf x < l.indexOf y) := by
  induction l using dropDuplicates.induct with
  | case1 => rw [dropDuplicates_nil]; exact List.Pairwise.nil
  | case2 a as ih =>
    rw [dropDuplicates_cons]
    refine List.pairwise_cons.2 ⟨?_, ?_⟩
    · intro y hy
      have hyf := (mem_dropDuplicates _ _).1 hy
      have hya : y ≠ a := by simpa using (List.mem_filter.1 hyf).2
      rw [List.indexOf_cons_self, List.indexOf_cons_ne _ (Ne.symm hya)]
      exact Nat.succ_pos _
    · refine List.Pairwise.imp_of_mem ?_ ih
      intro x y hx hy hlt
      have hxf := (mem_dropDuplicates _ _).1 hx
      have hyf := (mem_dropDuplicates _ _).1 hy
      have hxa : x ≠ a := by simpa using (List.mem_filter.1 hxf).2
      have hya : y ≠ a := by simpa using (List.mem_filter.1 hyf).2
      have h2 : as.indexOf x < as.indexOf y :=
        indexOf_lt_of_filter_indexOf_lt hxf hyf hlt
      rw [List.indexOf_cons_ne _ (Ne.symm hxa), List.indexOf_cons_ne _ (Ne.symm hya)]
      exact Nat.succ_lt_succ h2

theorem normField_ne_empty (s : String) : normField s ≠ "" := by
  unfold normField
  split
  · decide
  · assumption

/-! ### The claims -/

/-- C1: the enrichment loop of `main` appends exactly one `EnrichedRecord`
per `CardRecord`, in input order; a record with an absent detail URL, and a
record whose fetch-or-parse step raises, each get an empty biography; no
record is dropped and the loop never aborts early. -/
theorem c1_enrich_loop_one_record_each (outcome : String → DetailOutcome)
    (recs : List CardRecord) :
    (enrichAll outcome recs).length = recs.length
    ∧ (∀ i : Nat, (enrichAll outcome recs)[i]? = (recs[i]?).map (enrichOne outcome))
    ∧ (∀ rec : CardRecord, rec.detailUrl = none → (enrichOne outcome rec).about = "")
    ∧ (∀ rec : CardRecord, ∀ url : String, rec.detailUrl = some url →
        outcome url = DetailOutcome.failed → (enrichOne outcome rec).about = "") := by
  refine ⟨List.length_map _ _, fun i => List.getElem?_map _ _ i, ?_, ?_⟩
  · intro rec h
    simp only [enrichOne, h]
    rfl
  · intro rec url hu hf
    simp only [enrichOne, hu, hf]
    rfl

/-- Witness for C1: a record with no detail URL and a record whose fetch
fails both get an empty biography. -/
theorem c1_enrich_loop_one_record_each_witness :
    (enrichOne (fun _ => DetailOutcome.failed)
      { name := "A", firstTag := "t", lastTag := "u", detailUrl := none }).about = ""
    ∧ (enrichOne (fun _ => DetailOutcome.failed)
      { name := "B", firstTag := "t", lastTag := "u",
        detailUrl := some "https://www.alternatives.org.uk/x" }).about = "" :=
  ⟨(c1_enrich_loop_one_record_each (fun _ => DetailOutcome.failed) []).2.2.1 _ rfl,
   (c1_enrich_loop_one_record_each (fun _ => DetailOutcome.failed) []).2.2.2 _
     "https://www.alternatives.org.uk/x" rfl rfl⟩

/-- C2: post-processing replaces every empty field of every record by the
sentinel "N/A" before deduplication; deduplication then removes rows equal
across all four post-normalization fields, keeps the first occurrence, and
survivors keep their original relative order (membership in the output is
exactly membership in the normalized input, the output is a duplicate-free
sublist, and output positions follow first-occurrence positions). -/
theorem c2_postprocess_normalize_then_dedup (rs : List EnrichedRecord) :
    (∀ r ∈ postProcess rs,
      r.name ≠ "" ∧ r.firstTag ≠ "" ∧ r.lastTag ≠ "" ∧ r.about ≠ "")
    ∧ (∀ x : EnrichedRecord, x ∈ postProcess rs ↔ x ∈ rs.map normalize)
    ∧ (postProcess rs).Sublist (rs.map normalize)
    ∧ (postProcess rs).Nodup
    ∧ (postProcess rs).Pairwise
        (fun x y => (rs.map normalize).indexOf x < (rs.map normalize).indexOf y) := by
  refine ⟨?_, fun x => mem_dropDuplicates _ x, dropDuplicates_sublist _,
    dropDuplicates_nodup _, dropDuplicates_pairwise _⟩
  intro r hr
  have hmem := (mem_dropDuplicates _ r).1 hr
  rcases List.mem_map.1 hmem with ⟨r0, _, rfl⟩
  exact ⟨normField_ne_empty _, normField_ne_empty _, normField_ne_empty _,
    normField_ne_empty _⟩

/-- Witness for C2: two identical all-empty rows normalize to the "N/A"
sentinel row and collapse to one surviving row with no empty field. -/
theorem c2_postprocess_normalize_then_dedup_witness :
    ({ name := "N/A", firstTag := "N/A", lastTag := "N/A", about := "N/A" }
        : EnrichedRecord).name ≠ ""
    ∧ (postProcess [{ name := "", firstTag := "", lastTag := "", about := "" },
        { name := "", firstTag := "", lastTag := "", about := "" }]).Nodup :=
  ⟨((c2_postprocess_normalize_then_dedup
      [{ name := "", firstTag := "", lastTag := "", about := "" },
       { name := "", firstTag := "", lastTag := "", about := "" }]).1 _
    (by rw [postProcess, List.map_cons, List.map_cons, List.map_nil,
          dropDuplicates_cons]
        exact List.mem_cons_self _ _)).1,
   (c2_postprocess_normalize_then_dedup
      [{ name := "", firstTag := "", lastTag := "", about := "" },
       { name := "", firstTag := "", lastTag := "", about := "" }]).2.2.2.1⟩

/-- C3: the Card Parser returns one record per detected `div.views-row`
container, in exactly the order the rows appear in the input. -/
theorem c3_card_parser_one_per_row_in_order (nodes : List RowNode) :
    (parse_main_cards nodes).length = nodes.length
    ∧ ∀ i : Nat, (parse_main_cards nodes)[i]? = (nodes[i]?).map cardOfRow :=
  ⟨List.length_map _ _, fun i => List.getElem?_map _ _ i⟩

/-- C4: the Retrying Fetcher makes at most 3 attempts; two failures then a
success return the third attempt's HTML in exactly 3 attempts; three
failures surface the final error (no partial data) after exactly 3
attempts. -/
theorem c4_retry_at_most_three_attempts (atts : Nat → Attempt) :
    (fetch_detail_html atts).2 ≤ RETRY_ATTEMPTS
    ∧ (∀ e0 e1 : FetchErr, ∀ s : String,
        (atts 0).body = Except.error e0 → (atts 1).body = Except.error e1 →
        (atts 2).body = Except.ok s →
        fetch_detail_html atts = (Except.ok s, 3))
    ∧ (∀ e0 e1 e2 : FetchErr,
        (atts 0).body = Except.error e0 → (atts 1).body = Except.error e1 →
        (atts 2).body = Except.error e2 →
        fetch_detail_html atts = (Except.error e2, 3)) := by
  refine ⟨?_, ?_, ?_⟩
  · rcases h0 : (atts 0).body with e0 | s0
    · rcases h1 : (atts 1).body with e1 | s1
      · rcases h2 : (atts 2).body with e2 | s2
        · simp [fetch_detail_html, RETRY_ATTEMPTS, retryRun, runAttempt, h0, h1, h2]
        · simp [fetch_detail_html, RETRY_ATTEMPTS, retryRun, runAttempt, h0, h1, h2]
      · simp [fetch_detail_html, RETRY_ATTEMPTS, retryRun, runAttempt, h0, h1]
    · simp [fetch_detail_html, RETRY_ATTEMPTS, retryRun, runAttempt, h0]
  · intro e0 e1 s h0 h1 h2
    simp [fetch_detail_html, RETRY_ATTEMPTS, retryRun, runAttempt, h0, h1, h2]
  · intro e0 e1 e2 h0 h1 h2
    simp [fetch_detail_html, RETRY_ATTEMPTS, retryRun, runAttempt, h0, h1, h2]

/-- Witness for C4: an oracle failing on the first two attempts and
succeeding on the third yields that HTML in exactly 3 attempts. -/
theorem c4_retry_at_most_three_attempts_witness :
    fetch_detail_html (fun n => if n = 2
        then { body := Except.ok "html", closeFails := false }
        else { body := Except.error FetchErr.navTimeout, closeFails := true })
      = (Except.ok "html", 3) :=
  (c4_retry_at_most_three_attempts _).2.1 FetchErr.navTimeout FetchErr.navTimeout
    "html" rfl rfl rfl

/-- C5: a content block with paragraph elements keeps every non-empty
stripped paragraph regardless of length (the 30-character heuristic does
not apply); a paragraph-free block contributes nothing when its stripped
text has length at most 30, and contributes exactly that text when the
length exceeds 30. -/
theorem c5_block_thirty_char_heuristic (block : FieldBlock) :
    (block.paragraphs ≠ [] →
      blockParts block = (block.paragraphs.map pstrip).filter (fun t => t ≠ "")
      ∧ ∀ p ∈ block.paragraphs, pstrip p ≠ "" → pstrip p ∈ blockParts block)
    ∧ (block.paragraphs = [] → (pstrip block.ownText).length ≤ 30 →
        blockParts block = [])
    ∧ (block.paragraphs = [] → (pstrip block.ownText).length > 30 →
        blockParts block = [pstrip block.ownText]) := by
  refine ⟨?_, ?_, ?_⟩
  · intro h
    refine ⟨by rw [blockParts, if_pos h], ?_⟩
    intro p hp hne
    rw [blockParts, if_pos h]
    exact List.mem_filter.2 ⟨List.mem_map_of_mem _ hp, decide_eq_true hne⟩
  · intro h hle
    rw [blockParts, if_neg (by simp [h])]
    exact if_neg (fun hc => absurd hc.2 (Nat.not_lt.mpr hle))
  · intro h hgt
    rw [blockParts, if_neg (by simp [h])]
    refine if_pos ⟨?_, hgt⟩
    intro he
    rw [he] at hgt
    exact absurd hgt (by decide)

/-- Witness for C5: a short paragraph is kept, a short paragraph-free block
is dropped, a long paragraph-free block is kept whole. -/
theorem c5_block_thirty_char_heuristic_witness :
    pstrip "hi" ∈ blockParts { paragraphs := ["hi"], ownText := "" }
    ∧ blockParts { paragraphs := [], ownText := "short caption" } = []
    ∧ blockParts { paragraphs := [], ownText := "a body text that is certainly longer than thirty characters" } = [pstrip "a body text that is certainly longer than thirty characters"] :=
  ⟨((c5_block_thirty_char_heuristic _).1 (by decide)).2 "hi" (by decide) (by decide),
   (c5_block_thirty_char_heuristic _).2.1 rfl (by decide),
   (c5_block_thirty_char_heuristic _).2.2 rfl (by decide)⟩

/-- C6: a row with no `ul` or an empty `ul` gets empty first and last
tags; a row whose `ul` has exactly one item gets equal first and last
tags. -/
theorem c6_first_last_tag_degenerate (node : RowNode) :
    ((node.ul = none ∨ node.ul = some []) →
      (cardOfRow node).firstTag = "" ∧ (cardOfRow node).lastTag = "")
    ∧ (∀ x : String, node.ul = some [x] →
        (cardOfRow node).firstTag = (cardOfRow node).lastTag) := by
  cases node with
  | mk anchor ul =>
    constructor
    · rintro (h | h) <;> subst h <;> exact ⟨rfl, rfl⟩
    · intro x h
      subst h
      rfl

/-- Witness for C6: a row with no list, a row with an empty list, and a
row with a one-item list. -/
theorem c6_first_last_tag_degenerate_witness :
    ((cardOfRow { anchor := none, ul := none }).firstTag = ""
      ∧ (cardOfRow { anchor := none, ul := none }).lastTag = "")
    ∧ ((cardOfRow { anchor := none, ul := some [] }).firstTag = ""
      ∧ (cardOfRow { anchor := none, ul := some [] }).lastTag = "")
    ∧ (cardOfRow { anchor := none, ul := some [" mind "] }).firstTag
      = (cardOfRow { anchor := none, ul := some [" mind "] }).lastTag :=
  ⟨(c6_first_last_tag_degenerate _).1 (Or.inl rfl),
   (c6_first_last_tag_degenerate _).1 (Or.inr rfl),
   (c6_first_last_tag_degenerate _).2 " mind " rfl⟩

/-- C7: the Detail Parser on absent input returns the empty string, and
doing so any number of times always yields that same empty result. -/
theorem c7_absent_input_empty_idempotent :
    parse_about_from_html none = ""
    ∧ ∀ n : Nat, (List.replicate n (none : Option Doc)).map parse_about_from_html
        = List.replicate n "" := by
  refine ⟨rfl, fun n => ?_⟩
  rw [List.map_replicate]
  rfl

/-- C8: every attempt invokes the page release on every outcome, and a
failing release is swallowed: the attempt's result equals the body's
outcome whether or not `page.close()` raises. -/
theorem c8_page_released_close_error_swallowed (a : Attempt) :
    (runAttempt a).2 = true
    ∧ (runAttempt a).1 = a.body
    ∧ runAttempt { body := a.body, closeFails := true }
      = runAttempt { body := a.body, closeFails := false } :=
  ⟨rfl, rfl, rfl⟩

/-- C9: every field of every appended `EnrichedRecord` is stripped of
leading and trailing whitespace, on the success and the failure path
alike. -/
theorem c9_enriched_fields_stripped (outcome : String → DetailOutcome)
    (rec : CardRecord) :
    IsStripped (enrichOne outcome rec).name
    ∧ IsStripped (enrichOne outcome rec).firstTag
    ∧ IsStripped (enrichOne outcome rec).lastTag
    ∧ IsStripped (enrichOne outcome rec).about :=
  ⟨pstrip_idem _, pstrip_idem _, pstrip_idem _, pstrip_idem _⟩

/-- C10: a block whose paragraphs all strip to empty contributes nothing;
the parser never falls back to the block's own text when paragraph
elements are present, however long that text is. -/
theorem c10_empty_paragraphs_no_fallback (block : FieldBlock)
    (hp : block.paragraphs ≠ [])
    (hall : ∀ p ∈ block.paragraphs, pstrip p = "") :
    blockParts block = [] := by
  rw [blockParts, if_pos hp]
  rw [List.filter_eq_nil_iff]
  intro a ha
  rcases List.mem_map.1 ha with ⟨p, hpmem, rfl⟩
  simp [hall p hpmem]

/-- Witness for C10: whitespace-only paragraphs beside a long own text
still contribute nothing. -/
theorem c10_empty_paragraphs_no_fallback_witness :
    blockParts { paragraphs := ["  ", ""], ownText := "this own text is certainly longer than thirty characters" } = [] :=
  c10_empty_paragraphs_no_fallback _ (by decide) (by decide)

end Scraper
